import Mathlib

/-!
Verification development for the ProgressBar repository.

The development shallowly embeds the two core components of the code base:

* `CircularBuffer.hpp` — the fixed-capacity FIFO container with derived
  statistics (`push_back`, `pop_front`, `mean_local`, `median_local`,
  `minimum_local`, `maximum_local`, `variance_local`,
  `standardDeviation_local`), modelled as a `maxSize` bound together with a
  list of samples (front of the list = oldest element, exactly like the
  underlying `std::deque`). Arithmetic sample values and the `double`
  results are idealised as rationals.

* `ProgressBar.cpp` (`calculate_etc`, `tick`, `is_done`) — the ETC
  estimator. Its state (`m_delta_times`, `m_last_etc`,
  `m_update_counter`, `m_last_tick_time`) is declared with function-local
  `static` storage in the source, so the embedding threads a single,
  process-wide `Option EtcState` through every call; `none` models the
  statics not yet being initialised. Unsigned 64-bit wraparound in the
  `overall_etc` expression is modelled with explicit `% 2 ^ 64`.
-/

namespace ProgressBarSpec

/-- Model of `CircularBuffer::CircularBuffer<T>`: the fixed bound
`m_max_size` and the contents of the `std::deque` member `m_buffer`,
oldest element first. -/
structure CircularBuffer (α : Type) where
  maxSize : Nat
  buffer : List α
  deriving DecidableEq

/-- The `explicit CircularBuffer(size_t size)` constructor: it stores the
bound unvalidated (its body is empty) and starts with an empty deque. -/
def CircularBuffer.create (α : Type) (size : Nat) : CircularBuffer α :=
  ⟨size, []⟩

/-- `CircularBuffer::push_back`: if the deque already holds `m_max_size`
elements, `pop_front()` runs first, then the new element is appended.
(`pop_front` of the empty deque, reachable only for a zero-capacity
buffer, is undefined behaviour in C++; the model takes `List.tail [] = []`
there.) -/
def CircularBuffer.push {α : Type} (b : CircularBuffer α) (x : α) : CircularBuffer α :=
  if b.buffer.length = b.maxSize then
    ⟨b.maxSize, b.buffer.tail ++ [x]⟩
  else
    ⟨b.maxSize, b.buffer ++ [x]⟩

/-- `CircularBuffer::size`. -/
def CircularBuffer.size {α : Type} (b : CircularBuffer α) : Nat :=
  b.buffer.length

/-- `CircularBuffer::pop_front`: `none` on an empty buffer, otherwise the
oldest element together with the shrunken buffer. -/
def CircularBuffer.pop {α : Type} (b : CircularBuffer α) : Option α × CircularBuffer α :=
  match b.buffer with
  | [] => (none, b)
  | x :: xs => (some x, ⟨b.maxSize, xs⟩)

/-- `CircularBuffer::mean_local`: `std::nullopt` when empty, otherwise
`std::reduce(begin, end, 0.0) / size` — the sum divided by the count,
computed in `double` (idealised as `ℚ`). -/
def meanLocal (b : CircularBuffer ℚ) : Option ℚ :=
  if b.buffer = [] then none
  else some (b.buffer.sum / (b.buffer.length : ℚ))

/-- The ascending `std::sort` of a snapshot of the buffer, as used by
`median_local`. -/
def sortAsc (l : List ℚ) : List ℚ :=
  l.insertionSort (fun x y => x ≤ y)

/-- `CircularBuffer::median_local`: `std::nullopt` when empty; otherwise
sort a copy ascending, take `middle = size / 2`, and return the average of
the elements at `middle - 1` and `middle` for an even count, the element
at `middle` for an odd count. -/
def medianLocal (b : CircularBuffer ℚ) : Option ℚ :=
  if b.buffer = [] then none
  else
    let sorted := sortAsc b.buffer
    let middle := sorted.length / 2
    if sorted.length % 2 = 0 then
      some ((sorted.getD (middle - 1) 0 + sorted.getD middle 0) / 2)
    else
      some (sorted.getD middle 0)

/-- The value of `*std::min_element(begin, end)` on a list (front first):
`none` when empty, otherwise the least element. -/
def listMin : List ℚ → Option ℚ
  | [] => none
  | x :: xs => some (xs.foldl min x)

/-- The value of `*std::max_element(begin, end)` on a list. -/
def listMax : List ℚ → Option ℚ
  | [] => none
  | x :: xs => some (xs.foldl max x)

/-- `CircularBuffer::minimum_local`. -/
def minimumLocal (b : CircularBuffer ℚ) : Option ℚ :=
  listMin b.buffer

/-- `CircularBuffer::maximum_local`. -/
def maximumLocal (b : CircularBuffer ℚ) : Option ℚ :=
  listMax b.buffer

/-- `CircularBuffer::variance_local`: `std::nullopt` when empty; otherwise
`meanValue = mean().value_or(T())`, then
`transform_reduce` of `pow(value - meanValue, 2)` divided by `size`. -/
def varianceLocal (b : CircularBuffer ℚ) : Option ℚ :=
  if b.buffer = [] then none
  else
    let meanValue := (meanLocal b).getD 0
    some (((b.buffer.map (fun v => (v - meanValue) * (v - meanValue))).sum) / (b.buffer.length : ℚ))

/-- `CircularBuffer::standardDeviation_local`: `std::nullopt` when the
variance is absent, otherwise `std::sqrt(var.value())`. -/
noncomputable def standardDeviationLocal (b : CircularBuffer ℚ) : Option ℝ :=
  Option.map (fun q : ℚ => Real.sqrt ((q : ℚ) : ℝ)) (varianceLocal b)

/-- `std::numeric_limits<size_t>::max()`, the "unbounded" total. -/
def SENTINEL : Nat := 2 ^ 64 - 1

/-- `std::chrono::milliseconds::max().count()` — `int64` max, the value
`calculate_etc` returns when ETC is not applicable. -/
def UNAVAILABLE : Int := 2 ^ 63 - 1

/-- `std::numeric_limits<double>::max()`, the initial value of the static
`m_last_etc`. -/
def dblMax : ℚ := 2 ^ 1024 - 2 ^ 971

/-- Conversion of an unsigned 64-bit value to `std::chrono::milliseconds::rep`
(`int64`), which C++20 defines modularly. -/
def toRep (v : Nat) : Int :=
  if v < 2 ^ 63 then (v : Int) else (v : Int) - 2 ^ 64

/-- Truncation of a `double` to an integer type (`static_cast` toward
zero), on the rational idealisation of doubles. -/
def dtrunc (q : ℚ) : Int :=
  if 0 ≤ q then ⌊q⌋ else -⌊-q⌋

/-- The capacity expression of the static delta buffer in `calculate_etc`:
`m_total > 2*CIRCULAR_BUFFER ? CIRCULAR_BUFFER : m_total/2` with
`CIRCULAR_BUFFER = 10`. -/
def capacityFor (total : Nat) : Nat :=
  if total > 2 * 10 then 10 else total / 2

/-- The function-local `static` state of `ProgressBar::calculate_etc`:
`m_delta_times`, `m_last_etc`, `m_update_counter` (a `uint8_t`) and
`m_last_tick_time`. Times are modelled as milliseconds on a monotonic
clock (naturals). -/
structure EtcState where
  deltaTimes : CircularBuffer ℚ
  lastEtc : ℚ
  counter : Nat
  lastTick : Nat
  deriving DecidableEq

/-- Initialisation of the statics, run the first time control passes their
declarations: the delta buffer gets capacity `capacityFor total`,
`m_last_etc = double max`, `m_update_counter = 0`, and (in the
`string_view` translation unit) `m_last_tick_time = m_start_time` of the
bar whose call performs the initialisation. -/
def initEtc (total start : Nat) : EtcState :=
  ⟨CircularBuffer.create ℚ (capacityFor total), dblMax, 0, start⟩

/-- The `overall_etc` expression
`elapsed * (m_total - m_progress) / m_progress`: `elapsed` is a
non-negative `int64`, `m_total`/`m_progress` are `size_t`, so the whole
expression is evaluated in unsigned 64-bit arithmetic (subtraction and
multiplication wrap modulo `2 ^ 64`, division truncates). -/
def overallEtc (elapsed total progress : Nat) : Nat :=
  elapsed * ((total + 2 ^ 64 - progress % 2 ^ 64) % 2 ^ 64) % 2 ^ 64 / progress

/-- `ProgressBar::calculate_etc` (the `CircularBuffer`, non-TBB
translation). Parameters: the calling instance fields `m_total`,
`m_progress`, `m_start_time`, the clock reading `now`, and the shared
static state (`none` while uninitialised). Returns the
`std::chrono::milliseconds::rep` result and the updated static state.

Shape of the source: the `!m_progress or !m_total` guard returns the
unavailable sentinel before the static declarations; then `overall_etc`
is computed; the warm-up branch (`m_update_counter == 0 or
m_delta_times.size() < CIRCULAR_BUFFER`) stores and returns it; otherwise
`++m_update_counter % UPDATE_INTERVAL == 0` decides between a blend
update (push the delta, `recent_avg = mean().value_or(0.)`,
`recent_etc = recent_avg * (total - progress) / progress`,
`combined_etc = (overall_etc + recent_etc) * 0.5`, reset the counter) and
returning the cached `m_last_etc`. -/
def calculateEtc (total progress start now : Nat) (g : Option EtcState) :
    Int × Option EtcState :=
  if progress = 0 ∨ total = 0 then
    (UNAVAILABLE, g)
  else
    let s := g.getD (initEtc total start)
    let elapsed := now - start
    let overall := overallEtc elapsed total progress
    if s.counter = 0 ∨ s.deltaTimes.size < 10 then
      (toRep overall, some ⟨s.deltaTimes, (overall : ℚ), s.counter, now⟩)
    else
      let counter1 := (s.counter + 1) % 2 ^ 8
      if counter1 % 5 = 0 then
        let delta : ℚ := ((now - s.lastTick : Nat) : ℚ)
        let w := s.deltaTimes.push delta
        let recentAvg : ℚ := (meanLocal w).getD 0
        let recentEtc : ℚ := recentAvg * ((total : ℚ) - (progress : ℚ)) / (progress : ℚ)
        let combined : ℚ := ((overall : ℚ) + recentEtc) * (1 / 2)
        (dtrunc combined, some ⟨w, combined, 0, now⟩)
      else
        (dtrunc s.lastEtc, some ⟨s.deltaTimes, s.lastEtc, counter1, s.lastTick⟩)

/-- A sequence of `calculate_etc` calls from one bar (fixed `m_total` and
`m_start_time`), fed with a list of `(m_progress, now)` pairs, folded over
the shared static state. -/
def runEtc (total start : Nat) (inputs : List (Nat × Nat)) (g : Option EtcState) :
    Option EtcState :=
  inputs.foldl (fun acc pr => (calculateEtc total pr.1 start pr.2 acc).2) g

/-- `ProgressBar::is_done`: `m_progress >= m_total`. -/
def isDone (total progress : Nat) : Bool :=
  total ≤ progress

/-- `ProgressBar::tick` followed by the clamp `display()` applies to
`m_progress` in bounded mode: increment unless the bar is bounded and
already done, then `m_progress = std::clamp(m_progress, 0, m_total)`
whenever `m_total` is neither `0` nor the unbounded sentinel. -/
def tick (total progress : Nat) : Nat :=
  let p1 := if total = SENTINEL ∨ ¬ isDone total progress then progress + 1 else progress
  if total ≠ 0 ∧ total ≠ SENTINEL then min p1 total else p1

/-- Progress after `n` ticks of a bar constructed with `m_progress = 0`. -/
def progressAfter (total : Nat) : Nat → Nat
  | 0 => 0
  | n + 1 => tick total (progressAfter total n)

/-- Modelled from the spec (section 4.2, step 2): the specified
double-precision `overall_etc = elapsed_since_start * (total - progress)
/ progress`, real-number arithmetic with no integer truncation. Kept
separate from `overallEtc`, which is translated from the source, so the
two can be compared. -/
def specOverallEtc (elapsed total progress : ℚ) : ℚ :=
  elapsed * (total - progress) / progress

theorem foldl_min_spec (xs : List ℚ) : ∀ x : ℚ,
    (xs.foldl min x = x ∨ xs.foldl min x ∈ xs) ∧
    xs.foldl min x ≤ x ∧ ∀ y ∈ xs, xs.foldl min x ≤ y := by
  induction xs with
  | nil => intro x; simp
  | cons z zs ih =>
    intro x
    simp only [List.foldl_cons]
    have h := ih (min x z)
    refine ⟨?_, ?_, ?_⟩
    · rcases h.1 with h1 | h1
      · rcases min_choice x z with hc | hc
        · exact Or.inl (by rw [h1, hc])
        · exact Or.inr (by rw [h1, hc]; exact List.mem_cons_self _ _)
      · exact Or.inr (List.mem_cons_of_mem _ h1)
    · exact le_trans h.2.1 (min_le_left _ _)
    · intro y hy
      rcases List.mem_cons.mp hy with rfl | hy
      · exact le_trans h.2.1 (min_le_right _ _)
      · exact h.2.2 y hy

theorem foldl_max_spec (xs : List ℚ) : ∀ x : ℚ,
    (xs.foldl max x = x ∨ xs.foldl max x ∈ xs) ∧
    x ≤ xs.foldl max x ∧ ∀ y ∈ xs, y ≤ xs.foldl max x := by
  induction xs with
  | nil => intro x; simp
  | cons z zs ih =>
    intro x
    simp only [List.foldl_cons]
    have h := ih (max x z)
    refine ⟨?_, ?_, ?_⟩
    · rcases h.1 with h1 | h1
      · rcases max_choice x z with hc | hc
        · exact Or.inl (by rw [h1, hc])
        · exact Or.inr (by rw [h1, hc]; exact List.mem_cons_self _ _)
      · exact Or.inr (List.mem_cons_of_mem _ h1)
    · exact le_trans (le_max_left _ _) h.2.1
    · intro y hy
      rcases List.mem_cons.mp hy with rfl | hy
      · exact le_trans (le_max_right _ _) h.2.1
      · exact h.2.2 y hy

theorem listMin_spec (l : List ℚ) (m : ℚ) (h : listMin l = some m) :
    m ∈ l ∧ ∀ y ∈ l, m ≤ y := by
  cases l with
  | nil => exact absurd h (by simp [listMin])
  | cons x xs =>
    have hm : xs.foldl min x = m := by
      simpa [listMin] using h
    have h1 := foldl_min_spec xs x
    subst hm
    constructor
    · rcases h1.1 with h2 | h2
      · rw [h2]; exact List.mem_cons_self _ _
      · exact List.mem_cons_of_mem _ h2
    · intro y hy
      rcases List.mem_cons.mp hy with rfl | hy
      · exact h1.2.1
      · exact h1.2.2 y hy

theorem listMax_spec (l : List ℚ) (m : ℚ) (h : listMax l = some m) :
    m ∈ l ∧ ∀ y ∈ l, y ≤ m := by
  cases l with
  | nil => exact absurd h (by simp [listMax])
  | cons x xs =>
    have hm : xs.foldl max x = m := by
      simpa [listMax] using h
    have h1 := foldl_max_spec xs x
    subst hm
    constructor
    · rcases h1.1 with h2 | h2
      · rw [h2]; exact List.mem_cons_self _ _
      · exact List.mem_cons_of_mem _ h2
    · intro y hy
      rcases List.mem_cons.mp hy with rfl | hy
      · exact h1.2.1
      · exact h1.2.2 y hy

theorem listMin_isSome (l : List ℚ) (h : l ≠ []) : ∃ m, listMin l = some m := by
  cases l with
  | nil => exact absurd rfl h
  | cons x xs => exact ⟨xs.foldl min x, rfl⟩

theorem listMax_isSome (l : List ℚ) (h : l ≠ []) : ∃ m, listMax l = some m := by
  cases l with
  | nil => exact absurd rfl h
  | cons x xs => exact ⟨xs.foldl max x, rfl⟩

theorem push_maxSize (b : CircularBuffer ℚ) (x : ℚ) :
    (b.push x).maxSize = b.maxSize := by
  unfold CircularBuffer.push
  split <;> rfl

theorem foldl_push_buffer (c : Nat) (hc : 1 ≤ c) :
    ∀ (vs : List ℚ) (b : CircularBuffer ℚ), b.maxSize = c → b.buffer.length ≤ c →
      (vs.foldl CircularBuffer.push b).maxSize = c ∧
      (vs.foldl CircularBuffer.push b).buffer =
        (b.buffer ++ vs).drop ((b.buffer ++ vs).length - c) := by
  intro vs
  induction vs with
  | nil =>
    intro b hm hl
    refine ⟨hm, ?_⟩
    simp only [List.foldl_nil, List.append_nil]
    rw [Nat.sub_eq_zero_of_le hl, List.drop_zero]
  | cons v vs ih =>
    intro b hm hl
    simp only [List.foldl_cons]
    by_cases hfull : b.buffer.length = b.maxSize
    · obtain ⟨hd, tl, hb⟩ : ∃ hd tl, b.buffer = hd :: tl := by
        cases hbuf : b.buffer with
        | nil => rw [hbuf] at hfull; rw [hm] at hfull; simp at hfull; omega
        | cons y ys => exact ⟨y, ys, rfl⟩
      have hpush : b.push v = ⟨c, tl ++ [v]⟩ := by
        unfold CircularBuffer.push
        rw [if_pos hfull, hb, hm]
        rfl
      have htl : tl.length = c - 1 := by
        have h2 := hfull
        rw [hb, hm] at h2
        simp at h2
        omega
      have hres := ih ⟨c, tl ++ [v]⟩ rfl (by simp [htl]; omega)
      rw [hpush]
      refine ⟨hres.1, ?_⟩
      rw [hres.2]
      have e1 : ({ maxSize := c, buffer := tl ++ [v] } : CircularBuffer ℚ).buffer ++ vs
          = tl ++ v :: vs := by simp
      rw [e1, hb, List.cons_append, List.length_cons]
      have hlen : (tl ++ v :: vs).length = tl.length + (vs.length + 1) := by simp
      have hn : (tl ++ v :: vs).length + 1 - c = ((tl ++ v :: vs).length - c) + 1 := by
        omega
      rw [hn, List.drop_succ_cons]
    · have hlt : b.buffer.length < c := by
        rw [hm] at hfull
        omega
      have hpush : b.push v = ⟨c, b.buffer ++ [v]⟩ := by
        unfold CircularBuffer.push
        rw [if_neg hfull, hm]
      have hres := ih ⟨c, b.buffer ++ [v]⟩ rfl (by simp; omega)
      rw [hpush]
      refine ⟨hres.1, ?_⟩
      rw [hres.2]
      simp [List.append_assoc]

/-- C4: for every capacity `c ≥ 1` and every sequence of `N` pushes
`v1..vN` into a fresh rolling window, if `N ≤ c` the window holds exactly
`v1..vN` in arrival order (`size = N`); if `N > c` it holds exactly the
last `c` pushed values in arrival order (`size = c`); in both cases the
retained contents are `vs.drop (N - c)`, and `minimum()`/`maximum()` are
the least/greatest element of only that retained subset. -/
theorem push_fifo_retains_last (c : Nat) (hc : 1 ≤ c) (vs : List ℚ) :
    (vs.foldl CircularBuffer.push (CircularBuffer.create ℚ c)).buffer
        = vs.drop (vs.length - c) ∧
    (vs.foldl CircularBuffer.push (CircularBuffer.create ℚ c)).size = min vs.length c ∧
    (vs.length ≤ c → (vs.foldl CircularBuffer.push (CircularBuffer.create ℚ c)).buffer = vs) ∧
    (vs ≠ [] → (∃ m, minimumLocal (vs.foldl CircularBuffer.push (CircularBuffer.create ℚ c)) = some m)
      ∧ ∃ m, maximumLocal (vs.foldl CircularBuffer.push (CircularBuffer.create ℚ c)) = some m) ∧
    (∀ m, minimumLocal (vs.foldl CircularBuffer.push (CircularBuffer.create ℚ c)) = some m →
        m ∈ vs.drop (vs.length - c) ∧ ∀ y ∈ vs.drop (vs.length - c), m ≤ y) ∧
    (∀ m, maximumLocal (vs.foldl CircularBuffer.push (CircularBuffer.create ℚ c)) = some m →
        m ∈ vs.drop (vs.length - c) ∧ ∀ y ∈ vs.drop (vs.length - c), y ≤ m) := by
  have hbuf := (foldl_push_buffer c hc vs (CircularBuffer.create ℚ c) rfl
    (by simp [CircularBuffer.create])).2
  have hcb : (CircularBuffer.create ℚ c).buffer = [] := rfl
  rw [hcb, List.nil_append] at hbuf
  have hne : vs ≠ [] → vs.drop (vs.length - c) ≠ [] := by
    intro h0
    have hlen : (vs.drop (vs.length - c)).length = vs.length - (vs.length - c) :=
      List.length_drop _ _
    intro hnil
    rw [hnil] at hlen
    simp at hlen
    have : 0 < vs.length := List.length_pos.mpr h0
    omega
  refine ⟨hbuf, ?_, ?_, ?_, ?_, ?_⟩
  · rw [CircularBuffer.size, hbuf, List.length_drop]
    omega
  · intro hle
    rw [hbuf, Nat.sub_eq_zero_of_le hle, List.drop_zero]
  · intro h0
    constructor
    · obtain ⟨m, hm⟩ := listMin_isSome (vs.drop (vs.length - c)) (hne h0)
      refine ⟨m, ?_⟩
      unfold minimumLocal
      rw [hbuf]
      exact hm
    · obtain ⟨m, hm⟩ := listMax_isSome (vs.drop (vs.length - c)) (hne h0)
      refine ⟨m, ?_⟩
      unfold maximumLocal
      rw [hbuf]
      exact hm
  · intro m hm
    unfold minimumLocal at hm
    rw [hbuf] at hm
    exact listMin_spec _ _ hm
  · intro m hm
    unfold maximumLocal at hm
    rw [hbuf] at hm
    exact listMax_spec _ _ hm

theorem push_fifo_retains_last_witness :
    (([1, 2, 3] : List ℚ).foldl CircularBuffer.push (CircularBuffer.create ℚ 2)).buffer
      = [2, 3] ∧
    (([1, 2, 3] : List ℚ).foldl CircularBuffer.push (CircularBuffer.create ℚ 2)).size = 2 := by
  have h := push_fifo_retains_last 2 (by norm_num) [1, 2, 3]
  constructor
  · have h1 := h.1
    simpa using h1
  · have h2 := h.2.1
    simpa using h2

theorem progressAfter_min (total : Nat) (h2 : total < SENTINEL) :
    ∀ n, progressAfter total n = min n total := by
  intro n
  induction n with
  | zero => simp [progressAfter]
  | succ n ih =>
    show tick total (progressAfter total n) = _
    rw [ih]
    unfold tick isDone SENTINEL
    unfold SENTINEL at h2
    simp only [decide_eq_true_eq]
    split_ifs with hA hB hC <;> omega

/-- C5: for a bar constructed with `0 < total <` the unbounded sentinel,
progress after `n` ticks is `min n total`, so the invariant
`progress ≤ total` always holds, `done()` is true exactly when
`total ≤ n` (progress has reached `total`), and once done every further
tick leaves progress at `total` with `done()` still true. -/
theorem bounded_progress_invariant (total : Nat) (h1 : 0 < total)
    (h2 : total < SENTINEL) (n : Nat) :
    progressAfter total n ≤ total ∧
    progressAfter total n = min n total ∧
    (isDone total (progressAfter total n) = true ↔ total ≤ n) ∧
    (total ≤ n → progressAfter total (n + 1) = total ∧
      isDone total (progressAfter total (n + 1)) = true) := by
  have hmin := progressAfter_min total h2
  refine ⟨?_, hmin n, ?_, ?_⟩
  · rw [hmin n]; omega
  · rw [hmin n]
    unfold isDone
    simp only [decide_eq_true_eq]
    omega
  · intro hn
    have h3 : progressAfter total (n + 1) = total := by
      rw [hmin (n + 1)]; omega
    refine ⟨h3, ?_⟩
    rw [h3]
    unfold isDone
    simp

theorem bounded_progress_invariant_witness :
    progressAfter 3 5 = 3 ∧ isDone 3 (progressAfter 3 5) = true := by
  have h := bounded_progress_invariant 3 (by norm_num) (by decide) 5
  constructor
  · have h1 := h.2.1
    simpa using h1
  · exact h.2.2.1.mpr (by norm_num)

theorem calcEtc_warm_step (total progress start now : Nat) (g : Option EtcState)
    (h : ∀ s, g = some s → s.counter = 0 ∧ s.deltaTimes.buffer = []) :
    (∀ s, (calculateEtc total progress start now g).2 = some s →
        s.counter = 0 ∧ s.deltaTimes.buffer = []) ∧
    ((calculateEtc total progress start now g).1 = UNAVAILABLE ∨
      (calculateEtc total progress start now g).1
        = toRep (overallEtc (now - start) total progress)) := by
  by_cases hg : progress = 0 ∨ total = 0
  · simp only [calculateEtc, if_pos hg]
    refine ⟨h, ?_⟩
    left
    trivial
  · have hs0 : (g.getD (initEtc total start)).counter = 0 ∧
        (g.getD (initEtc total start)).deltaTimes.buffer = [] := by
      cases g with
      | none => exact ⟨rfl, rfl⟩
      | some s => exact h s rfl
    simp only [calculateEtc, if_neg hg]
    rw [if_pos (Or.inl hs0.1)]
    refine ⟨?_, Or.inr rfl⟩
    intro s hsome
    have hs : s = ⟨(g.getD (initEtc total start)).deltaTimes,
        ((overallEtc (now - start) total progress : Nat) : ℚ),
        (g.getD (initEtc total start)).counter, now⟩ := by
      exact (Option.some.injEq _ _).mp hsome |>.symm
    rw [hs]
    exact ⟨hs0.1, hs0.2⟩

theorem runEtc_warm (total start : Nat) (inputs : List (Nat × Nat)) :
    ∀ g, (∀ s, g = some s → s.counter = 0 ∧ s.deltaTimes.buffer = []) →
      ∀ s, runEtc total start inputs g = some s →
        s.counter = 0 ∧ s.deltaTimes.buffer = [] := by
  induction inputs with
  | nil =>
    intro g h
    simpa [runEtc] using h
  | cons p ps ih =>
    intro g h
    have h1 := (calcEtc_warm_step total p.1 start p.2 g h).1
    have h2 := ih ((calculateEtc total p.1 start p.2 g).2) h1
    simpa [runEtc, List.foldl_cons] using h2

/-- C1 (the code, evaluated on the failing scenario): starting from the
uninitialised static state, after ANY sequence of `calculate_etc` calls
the update counter is still `0` and the delta window is still empty —
the warm-up early-return never increments the counter nor pushes a
delta — and every single call returns either the unavailable sentinel or
the warm-up `overall_etc` value. The blend update the claim describes is
therefore unreachable: the steady state never occurs. -/
theorem calculate_etc_blend_unreachable :
    (∀ (total start : Nat) (inputs : List (Nat × Nat)) (s : EtcState),
       runEtc total start inputs none = some s →
       s.counter = 0 ∧ s.deltaTimes.buffer = []) ∧
    (∀ (total progress start now : Nat) (g : Option EtcState),
       (∀ s, g = some s → s.counter = 0 ∧ s.deltaTimes.buffer = []) →
       (calculateEtc total progress start now g).1 = UNAVAILABLE ∨
       (calculateEtc total progress start now g).1
         = toRep (overallEtc (now - start) total progress)) := by
  constructor
  · intro total start inputs s hs
    exact runEtc_warm total start inputs none (fun s h => nomatch h) s hs
  · intro total progress start now g h
    exact (calcEtc_warm_step total progress start now g h).2

theorem calculate_etc_blend_unreachable_witness :
    ((⟨CircularBuffer.create ℚ 10, (98 : ℚ), 0, 2⟩ : EtcState).counter = 0 ∧
      (⟨CircularBuffer.create ℚ 10, (98 : ℚ), 0, 2⟩ : EtcState).deltaTimes.buffer = []) ∧
    ((calculateEtc 100 1 0 1 none).1 = UNAVAILABLE ∨
      (calculateEtc 100 1 0 1 none).1 = toRep (overallEtc 1 100 1)) :=
  ⟨calculate_etc_blend_unreachable.1 100 0 [(1, 1), (2, 2)] _ (by decide),
   calculate_etc_blend_unreachable.2 100 1 0 1 none (fun s h => nomatch h)⟩

/-- C2 (amended): during warm-up (counter `0` or fewer than
`CIRCULAR_BUFFER = 10` samples), a call with `progress ≠ 0` and
`total ≠ 0` returns `overall_etc = elapsed * (total - progress) /
progress` computed in unsigned 64-bit INTEGER arithmetic (truncating
division, not double precision), records that value as `last_etc`, sets
`last_tick_time = now`, and leaves the delta window and the counter
unchanged. Without wraparound the integer value is the plain
`elapsed * (total - progress) / progress`, and below `2 ^ 63` the
returned `rep` equals it. -/
theorem calculate_etc_warmup (total progress start now : Nat) (s : EtcState)
    (hp : progress ≠ 0) (ht : total ≠ 0)
    (hw : s.counter = 0 ∨ s.deltaTimes.size < 10) :
    calculateEtc total progress start now (some s) =
      (toRep (overallEtc (now - start) total progress),
       some ⟨s.deltaTimes, ((overallEtc (now - start) total progress : Nat) : ℚ),
         s.counter, now⟩) ∧
    (progress ≤ total → total < 2 ^ 64 →
      (now - start) * (total - progress) < 2 ^ 64 →
      overallEtc (now - start) total progress
        = (now - start) * (total - progress) / progress) ∧
    (overallEtc (now - start) total progress < 2 ^ 63 →
      toRep (overallEtc (now - start) total progress)
        = ((overallEtc (now - start) total progress : Nat) : Int)) := by
  refine ⟨?_, ?_, ?_⟩
  · have hg : ¬ (progress = 0 ∨ total = 0) := by
      push_neg
      exact ⟨hp, ht⟩
    simp only [calculateEtc, if_neg hg, Option.getD_some]
    rw [if_pos hw]
  · intro hple hlt hprod
    unfold overallEtc
    have hpm : progress % 2 ^ 64 = progress :=
      Nat.mod_eq_of_lt (lt_of_le_of_lt hple hlt)
    rw [hpm]
    have he : total + 2 ^ 64 - progress = (total - progress) + 2 ^ 64 := by omega
    rw [he, Nat.add_mod_right,
      Nat.mod_eq_of_lt (show total - progress < 2 ^ 64 by omega),
      Nat.mod_eq_of_lt hprod]
  · intro hlt
    unfold toRep
    rw [if_pos hlt]

theorem calculate_etc_warmup_witness :
    calculateEtc 100 2 0 10 (some (initEtc 100 0)) =
      (toRep (overallEtc 10 100 2),
       some ⟨(initEtc 100 0).deltaTimes, ((overallEtc 10 100 2 : Nat) : ℚ),
         (initEtc 100 0).counter, 10⟩) ∧
    overallEtc 10 100 2 = 10 * 98 / 2 ∧
    toRep (overallEtc 10 100 2) = ((overallEtc 10 100 2 : Nat) : Int) := by
  have h := calculate_etc_warmup 100 2 0 10 (initEtc 100 0)
    (by norm_num) (by norm_num) (Or.inl rfl)
  refine ⟨h.1, ?_, h.2.2 (by decide)⟩
  have h2 := h.2.1 (by norm_num) (by norm_num) (by norm_num)
  simpa using h2

theorem calculate_etc_integer_truncation_counterexample :
    (calculateEtc 3 2 0 1 none).1 = 0 ∧
    specOverallEtc 1 3 2 = 1 / 2 ∧
    ((0 : ℚ) ≠ 1 / 2) := by
  refine ⟨by decide, ?_, by norm_num⟩
  norm_num [specOverallEtc]

/-- C3 (amended): `calculate_etc` returns the unavailable sentinel
whenever `progress == 0` or `total == 0` (regardless of the other value),
leaving the static state untouched, and it never raises; but it performs
NO unbounded-sentinel check — with `total` equal to the sentinel and
`progress > 0` it goes on to compute the extrapolation (for example `0`
when no time has elapsed). The unbounded-mode guard lives in `display()`,
which never calls `calculate_etc` for an unbounded bar. -/
theorem calculate_etc_unavailable :
    (∀ (total progress start now : Nat) (g : Option EtcState),
       progress = 0 ∨ total = 0 →
       calculateEtc total progress start now g = (UNAVAILABLE, g)) ∧
    (calculateEtc SENTINEL 1 0 0 none).1 = 0 := by
  constructor
  · intro total progress start now g hg
    simp only [calculateEtc, if_pos hg]
  · decide

theorem calculate_etc_unavailable_witness :
    calculateEtc 7 0 0 5 none = (UNAVAILABLE, none) :=
  calculate_etc_unavailable.1 7 0 0 5 none (Or.inl rfl)

theorem calculate_etc_unbounded_counterexample :
    (calculateEtc SENTINEL 1 0 0 none).1 = 0 ∧ ((0 : Int) ≠ UNAVAILABLE) := by
  refine ⟨by decide, by decide⟩

/-- C6 (amended): the estimator state is one set of function-local
`static` variables shared by every `ProgressBar` instance: whichever
instance first passes the `progress`/`total` guard fixes the delta
window capacity from ITS total, and every later call — from any
instance — reuses and mutates that same state; the capacity is never
rederived from the calling instance. -/
theorem calculate_etc_shared_static_capacity (total progress start now : Nat)
    (s : EtcState) :
    ((calculateEtc total progress start now (some s)).2).map
        (fun t => t.deltaTimes.maxSize) = some s.deltaTimes.maxSize := by
  by_cases hg : progress = 0 ∨ total = 0
  · simp only [calculateEtc, if_pos hg, Option.map_some']
  · simp only [calculateEtc, if_neg hg, Option.getD_some]
    by_cases hw : s.counter = 0 ∨ s.deltaTimes.size < 10
    · rw [if_pos hw]
      simp only [Option.map_some']
    · rw [if_neg hw]
      by_cases hu : (s.counter + 1) % 2 ^ 8 % 5 = 0
      · rw [if_pos hu]
        simp only [Option.map_some']
        rw [push_maxSize]
      · rw [if_neg hu]
        simp only [Option.map_some']

theorem calculate_etc_shared_static_counterexample :
    (calculateEtc 100 1 0 5 none).2
        = some ⟨CircularBuffer.create ℚ 10, (495 : ℚ), 0, 5⟩ ∧
    (calculateEtc 4 1 0 6 (calculateEtc 100 1 0 5 none).2).2
        = some ⟨CircularBuffer.create ℚ 10, (18 : ℚ), 0, 6⟩ ∧
    capacityFor 4 = 2 ∧ ((10 : Nat) ≠ 2) ∧ ((495 : ℚ) ≠ 18) := by
  refine ⟨by decide, by decide, by decide, by decide, by decide⟩

/-- C7 (amended): the `CircularBuffer` constructor accepts ANY capacity,
including `0`, without validation, and the estimator window capacity is
`min(10, total / 2)` with NO floor: it is `0` for `total = 1` (the
estimator then really constructs a zero-capacity window), and it is at
least `1` exactly when `total ≥ 2`. -/
theorem window_capacity_no_floor :
    (∀ c : Nat, (CircularBuffer.create ℚ c).maxSize = c) ∧
    (∀ total : Nat, 1 ≤ total → capacityFor total = min 10 (total / 2)) ∧
    (∀ total : Nat, 2 ≤ total → 1 ≤ capacityFor total) ∧
    capacityFor 1 = 0 := by
  refine ⟨fun c => rfl, ?_, ?_, by decide⟩
  · intro total ht
    unfold capacityFor
    split_ifs with h
    · omega
    · omega
  · intro total ht
    unfold capacityFor
    split_ifs with h
    · omega
    · omega

theorem window_capacity_no_floor_witness :
    (CircularBuffer.create ℚ 0).maxSize = 0 ∧
    capacityFor 5 = min 10 2 ∧ 1 ≤ capacityFor 5 :=
  ⟨window_capacity_no_floor.1 0,
   window_capacity_no_floor.2.1 5 (by norm_num),
   window_capacity_no_floor.2.2.1 5 (by norm_num)⟩

theorem window_capacity_zero_counterexample :
    capacityFor 1 = 0 ∧ ¬ (1 ≤ capacityFor 1) ∧
    (initEtc 1 0).deltaTimes.maxSize = 0 ∧
    (CircularBuffer.create ℚ 0).maxSize = 0 := by
  refine ⟨by decide, by decide, by decide, by decide⟩

/-- C8: `median_local` of an empty window is `none`; of a non-empty
window it is the middle element (odd count) or the average of the two
middle elements (even count) of an ascending sorted permutation of the
samples, the window itself being left untouched (in the embedding the
statistic is a pure function of the buffer); and the two documented
examples hold: the median of pushes `[1,2,3,4,5]` is `3` and of
`[1,2,3,4]` is `2.5`. -/
theorem median_sorted_middle :
    (∀ b : CircularBuffer ℚ, b.buffer = [] → medianLocal b = none) ∧
    (∀ b : CircularBuffer ℚ, b.buffer ≠ [] →
       ∃ l : List ℚ, l.Perm b.buffer ∧ l.Sorted (· ≤ ·) ∧
         medianLocal b = some (if l.length % 2 = 0
           then (l.getD (l.length / 2 - 1) 0 + l.getD (l.length / 2) 0) / 2
           else l.getD (l.length / 2) 0)) ∧
    medianLocal (([1, 2, 3, 4, 5] : List ℚ).foldl CircularBuffer.push
      (CircularBuffer.create ℚ 5)) = some 3 ∧
    medianLocal (([1, 2, 3, 4] : List ℚ).foldl CircularBuffer.push
      (CircularBuffer.create ℚ 5)) = some (5 / 2) := by
  refine ⟨?_, ?_, ?_, ?_⟩
  · intro b hb
    unfold medianLocal
    rw [if_pos hb]
  · intro b hb
    refine ⟨sortAsc b.buffer, List.perm_insertionSort _ _,
      List.sorted_insertionSort _ _, ?_⟩
    unfold medianLocal
    rw [if_neg hb]
    by_cases hpar : (sortAsc b.buffer).length % 2 = 0
    · simp only [if_pos hpar]
    · simp only [if_neg hpar]
  · simp +decide [medianLocal, sortAsc, List.insertionSort, List.orderedInsert,
      CircularBuffer.push, CircularBuffer.create]
  · simp +decide [medianLocal, sortAsc, List.insertionSort, List.orderedInsert,
      CircularBuffer.push, CircularBuffer.create]
    norm_num

theorem median_sorted_middle_witness :
    medianLocal (CircularBuffer.create ℚ 3) = none ∧
    ∃ l : List ℚ,
      l.Perm (([2, 1] : List ℚ).foldl CircularBuffer.push
        (CircularBuffer.create ℚ 5)).buffer ∧
      l.Sorted (· ≤ ·) ∧
      medianLocal (([2, 1] : List ℚ).foldl CircularBuffer.push
          (CircularBuffer.create ℚ 5))
        = some (if l.length % 2 = 0
            then (l.getD (l.length / 2 - 1) 0 + l.getD (l.length / 2) 0) / 2
            else l.getD (l.length / 2) 0) :=
  ⟨median_sorted_middle.1 _ rfl, median_sorted_middle.2.1 _ (by decide)⟩

theorem sum_sq_dev (l : List ℚ) (m : ℚ) :
    (l.map (fun v => (v - m) * (v - m))).sum
      = (l.map (fun v => v * v)).sum - 2 * m * l.sum + (l.length : ℚ) * m * m := by
  induction l with
  | nil => simp
  | cons x xs ih =>
    simp only [List.map_cons, List.sum_cons, List.length_cons, ih]
    push_cast
    ring

/-- C9: `variance_local` of an empty window is `none` (as is
`standardDeviation_local`); of a non-empty window it is the POPULATION
variance — divide by `N`, not `N - 1` — here stated through the
equivalent moment identity `E[x²] − (E[x])²`, which holds only for the
`N` divisor; `standardDeviation_local` is its square root; and the
documented example holds: the variance of `[1,2,3]` is `2/3` and its
standard deviation `sqrt (2/3)`. -/
theorem variance_population_spec :
    (∀ b : CircularBuffer ℚ, b.buffer = [] →
       varianceLocal b = none ∧ standardDeviationLocal b = none) ∧
    (∀ b : CircularBuffer ℚ, b.buffer ≠ [] →
       varianceLocal b = some ((b.buffer.map (fun v => v * v)).sum / (b.buffer.length : ℚ)
          - (b.buffer.sum / (b.buffer.length : ℚ)) * (b.buffer.sum / (b.buffer.length : ℚ))) ∧
       standardDeviationLocal b
         = some (Real.sqrt (((b.buffer.map (fun v => v * v)).sum / (b.buffer.length : ℚ)
          - (b.buffer.sum / (b.buffer.length : ℚ)) * (b.buffer.sum / (b.buffer.length : ℚ)) : ℚ) : ℝ))) ∧
    varianceLocal (([1, 2, 3] : List ℚ).foldl CircularBuffer.push
      (CircularBuffer.create ℚ 5)) = some (2 / 3) ∧
    standardDeviationLocal (([1, 2, 3] : List ℚ).foldl CircularBuffer.push
      (CircularBuffer.create ℚ 5)) = some (Real.sqrt ((2 : ℝ) / 3)) := by
  have hvar : ∀ b : CircularBuffer ℚ, b.buffer ≠ [] →
      varianceLocal b = some ((b.buffer.map (fun v => v * v)).sum / (b.buffer.length : ℚ)
        - (b.buffer.sum / (b.buffer.length : ℚ)) * (b.buffer.sum / (b.buffer.length : ℚ))) := by
    intro b hb
    have hN : (b.buffer.length : ℚ) ≠ 0 := by
      simp only [ne_eq, Nat.cast_eq_zero, List.length_eq_zero]
      exact hb
    unfold varianceLocal meanLocal
    rw [if_neg hb, if_neg hb]
    simp only [Option.getD_some]
    rw [sum_sq_dev]
    congr 1
    field_simp
    ring
  have hex : varianceLocal (([1, 2, 3] : List ℚ).foldl CircularBuffer.push
      (CircularBuffer.create ℚ 5)) = some (2 / 3) := by
    simp +decide [varianceLocal, meanLocal, CircularBuffer.push, CircularBuffer.create]
    norm_num
  refine ⟨?_, ?_, hex, ?_⟩
  · intro b hb
    constructor
    · unfold varianceLocal
      rw [if_pos hb]
    · unfold standardDeviationLocal varianceLocal
      rw [if_pos hb]
      rfl
  · intro b hb
    refine ⟨hvar b hb, ?_⟩
    unfold standardDeviationLocal
    rw [hvar b hb]
    rfl
  · unfold standardDeviationLocal
    rw [hex, Option.map_some']
    congr 1
    push_cast
    norm_num

theorem variance_population_spec_witness :
    varianceLocal (CircularBuffer.create ℚ 4) = none ∧
    standardDeviationLocal (CircularBuffer.create ℚ 4) = none :=
  variance_population_spec.1 _ rfl

theorem mul_length_le_sum (l : List ℚ) (a : ℚ) (h : ∀ y ∈ l, a ≤ y) :
    a * (l.length : ℚ) ≤ l.sum := by
  induction l with
  | nil => simp
  | cons x xs ih =>
    have h1 := ih (fun y hy => h y (List.mem_cons_of_mem _ hy))
    have h2 := h x (List.mem_cons_self _ _)
    simp only [List.sum_cons, List.length_cons]
    push_cast
    nlinarith

theorem sum_le_mul_length (l : List ℚ) (a : ℚ) (h : ∀ y ∈ l, y ≤ a) :
    l.sum ≤ a * (l.length : ℚ) := by
  induction l with
  | nil => simp
  | cons x xs ih =>
    have h1 := ih (fun y hy => h y (List.mem_cons_of_mem _ hy))
    have h2 := h x (List.mem_cons_self _ _)
    simp only [List.sum_cons, List.length_cons]
    push_cast
    nlinarith

theorem getD_mem (l : List ℚ) (i : Nat) (h : i < l.length) : l.getD i 0 ∈ l := by
  rw [List.getD_eq_getElem?_getD, List.getElem?_eq_getElem h]
  simp only [Option.getD_some]
  exact List.getElem_mem h

/-- C10: on every non-empty window, `mean`, `median`, `minimum` and
`maximum` all return a value, and both the mean and the median lie
between the minimum and the maximum. -/
theorem stats_within_extremes (b : CircularBuffer ℚ) (hb : b.buffer ≠ []) :
    ∃ mn mx me md, minimumLocal b = some mn ∧ maximumLocal b = some mx ∧
      meanLocal b = some me ∧ medianLocal b = some md ∧
      mn ≤ me ∧ me ≤ mx ∧ mn ≤ md ∧ md ≤ mx := by
  obtain ⟨mn, hmn⟩ := listMin_isSome b.buffer hb
  obtain ⟨mx, hmx⟩ := listMax_isSome b.buffer hb
  have hmn_spec := listMin_spec _ _ hmn
  have hmx_spec := listMax_spec _ _ hmx
  have hN : (0 : ℚ) < (b.buffer.length : ℚ) := by
    have : 0 < b.buffer.length := List.length_pos.mpr hb
    exact_mod_cast this
  have hmean : meanLocal b = some (b.buffer.sum / (b.buffer.length : ℚ)) := by
    unfold meanLocal
    rw [if_neg hb]
  have hmean_lo : mn ≤ b.buffer.sum / (b.buffer.length : ℚ) := by
    rw [le_div_iff₀ hN]
    exact mul_length_le_sum _ _ hmn_spec.2
  have hmean_hi : b.buffer.sum / (b.buffer.length : ℚ) ≤ mx := by
    rw [div_le_iff₀ hN]
    exact sum_le_mul_length _ _ hmx_spec.2
  have hsorted_len : (sortAsc b.buffer).length = b.buffer.length :=
    List.length_insertionSort _ _
  have hsorted_pos : 0 < (sortAsc b.buffer).length := by
    rw [hsorted_len]
    exact List.length_pos.mpr hb
  have hmem : ∀ x, x ∈ sortAsc b.buffer → x ∈ b.buffer := by
    intro x hx
    exact (List.perm_insertionSort _ b.buffer).mem_iff.mp hx
  have hmid_lt : (sortAsc b.buffer).length / 2 < (sortAsc b.buffer).length :=
    Nat.div_lt_self hsorted_pos (by norm_num)
  have hmid_mem : (sortAsc b.buffer).getD ((sortAsc b.buffer).length / 2) 0 ∈ b.buffer :=
    hmem _ (getD_mem _ _ hmid_lt)
  by_cases hpar : (sortAsc b.buffer).length % 2 = 0
  · have hlen2 : 2 ≤ (sortAsc b.buffer).length := by omega
    have hmid1_lt : (sortAsc b.buffer).length / 2 - 1 < (sortAsc b.buffer).length := by omega
    have hmid1_mem : (sortAsc b.buffer).getD ((sortAsc b.buffer).length / 2 - 1) 0 ∈ b.buffer :=
      hmem _ (getD_mem _ _ hmid1_lt)
    have hmed : medianLocal b = some (((sortAsc b.buffer).getD ((sortAsc b.buffer).length / 2 - 1) 0
        + (sortAsc b.buffer).getD ((sortAsc b.buffer).length / 2) 0) / 2) := by
      unfold medianLocal
      rw [if_neg hb]
      simp only [if_pos hpar]
    refine ⟨mn, mx, _, _, ?_, ?_, hmean, hmed, hmean_lo, hmean_hi, ?_, ?_⟩
    · exact hmn
    · exact hmx
    · have h1 := hmn_spec.2 _ hmid1_mem
      have h2 := hmn_spec.2 _ hmid_mem
      linarith
    · have h1 := hmx_spec.2 _ hmid1_mem
      have h2 := hmx_spec.2 _ hmid_mem
      linarith
  · have hmed : medianLocal b
        = some ((sortAsc b.buffer).getD ((sortAsc b.buffer).length / 2) 0) := by
      unfold medianLocal
      rw [if_neg hb]
      simp only [if_neg hpar]
    refine ⟨mn, mx, _, _, ?_, ?_, hmean, hmed, hmean_lo, hmean_hi, ?_, ?_⟩
    · exact hmn
    · exact hmx
    · exact hmn_spec.2 _ hmid_mem
    · exact hmx_spec.2 _ hmid_mem

theorem stats_within_extremes_witness :
    ∃ mn mx me md,
      minimumLocal (([1, 2, 3] : List ℚ).foldl CircularBuffer.push
        (CircularBuffer.create ℚ 5)) = some mn ∧
      maximumLocal (([1, 2, 3] : List ℚ).foldl CircularBuffer.push
        (CircularBuffer.create ℚ 5)) = some mx ∧
      meanLocal (([1, 2, 3] : List ℚ).foldl CircularBuffer.push
        (CircularBuffer.create ℚ 5)) = some me ∧
      medianLocal (([1, 2, 3] : List ℚ).foldl CircularBuffer.push
        (CircularBuffer.create ℚ 5)) = some md ∧
      mn ≤ me ∧ me ≤ mx ∧ mn ≤ md ∧ md ≤ mx :=
  stats_within_extremes _ (by decide)

end ProgressBarSpec
